import Mathlib

/-!
# Verification of the stream-client resilience engine (`lib/twitter.js`)

A shallow embedding of the connection-lifecycle engine of the
`node-tweet-stream` client: the three bounded backoff sequences, the
reference-counted filter multisets, the record demultiplexer, and the
connect / classify-response / reconnect handlers, together with proofs of
the behavioural properties claimed in the specification.

Conventions of the embedding:
- JS closures holding `(current, max, step)` become a `BackoffState`
  structure; invoking the closure becomes `BackoffState.next`, returning
  `Except Unit (Nat × BackoffState)` (`.error` models the thrown
  `Exceeded twitter rate limit`).
- A JS object used as a keyword-to-count dictionary becomes an association
  list `List (Keyword × Int)` preserving key insertion order, so that
  `Object.keys(...).join(',')` is faithfully `String.intercalate ","`
  over the key list.
- `Math.random()` draws become an explicit parameter `u : ℚ` with
  `0 ≤ u < 1`; millisecond delays are rationals.
- Event-handler side effects (`abort`, issuing a request, `setTimeout`,
  `emit`) are recorded in an `Effect` list returned next to the updated
  state; `process.nextTick(connect)` runs `connect` in the same step,
  after the synchronous `emit` that follows it in the handler.
-/

/-! ## Backoff sequences (`backoff`, `Twitter.prototype.backoffs`) -/

/-- The step functions actually installed by `Twitter.prototype.backoffs`:
`function (x) { return x + 250 }` and `function (x) { return x * 2 }`. -/
inductive StepFn
  | add250
  | mul2
deriving DecidableEq, Repr

def stepApply : StepFn → Nat → Nat
  | .add250, x => x + 250
  | .mul2, x => x * 2

/-- The captured variables of one `backoff(current, max, step)` closure. -/
structure BackoffState where
  current : Nat
  max : Nat
  stepKind : StepFn
deriving DecidableEq, Repr

namespace BackoffState

/-- One invocation of the closure returned by `backoff`:
`if ((_value = current) > max) throw ...; current = step(current); return _value`. -/
def next (b : BackoffState) : Except Unit (Nat × BackoffState) :=
  if b.max < b.current then .error ()
  else .ok (b.current, { b with current := stepApply b.stepKind b.current })

/-- Invoke the closure `n` times from state `b`; returns the list of values
returned and whether an exhaustion error was raised. -/
def run (b : BackoffState) : Nat → List Nat × Bool
  | 0 => ([], false)
  | n + 1 =>
    match b.next with
    | .error _ => ([], true)
    | .ok (v, b') =>
      let r := b'.run n
      (v :: r.1, r.2)

end BackoffState

/-- `this.networkBackoff = backoff(0, 16 * 1000, function (x) { return x + 250 })` -/
def networkBackoff0 : BackoffState := { current := 0, max := 16000, stepKind := .add250 }

/-- `this.httpBackoff = backoff(1000, 320 * 1000, function (x) { return x * 2 })` -/
def httpBackoff0 : BackoffState := { current := 1000, max := 320000, stepKind := .mul2 }

/-- `this.rateBackoff = backoff(1000, 2147483647, function (x) { return x * 2})` -/
def rateBackoff0 : BackoffState := { current := 1000, max := 2147483647, stepKind := .mul2 }

/-! ## Jitter (`connect` response and error handlers) -/

/-- `let random = backoff * Math.random() * 0.5 - backoff * 0.25` with
`u` the value drawn by `Math.random()`. -/
def jitter (b u : ℚ) : ℚ := b * u * (1 / 2) - b * (1 / 4)

/-- `backoff = backoff + random`: the delay actually used. -/
def jittered (b u : ℚ) : ℚ := b + jitter b u

/-! ## Generic backoff lemmas -/

theorem stepApply_le (k : StepFn) (x : Nat) : x ≤ stepApply k x := by
  cases k <;> simp only [stepApply] <;> omega

theorem BackoffState.next_max (b : BackoffState) (v : Nat) (b' : BackoffState)
    (h : b.next = .ok (v, b')) : b'.max = b.max := by
  unfold BackoffState.next at h
  by_cases hc : b.max < b.current
  · simp [hc] at h
  · simp [hc] at h
    rcases h with ⟨h1, h2⟩
    rw [← h2]

theorem BackoffState.run_all_le (n : Nat) (b : BackoffState) :
    ((b.run n).1.all fun v => decide (v ≤ b.max)) = true := by
  induction n generalizing b with
  | zero => simp [BackoffState.run]
  | succ n ih =>
    unfold BackoffState.run
    rcases hn : b.next with he | ⟨v, b'⟩
    · simp
    · have hmax : b'.max = b.max := BackoffState.next_max b v b' hn
      have hv : v ≤ b.max := by
        unfold BackoffState.next at hn
        by_cases hc : b.max < b.current
        · simp [hc] at hn
        · simp [hc] at hn
          omega
      simp only [List.all_cons, Bool.and_eq_true, decide_eq_true_eq]
      refine ⟨hv, ?_⟩
      have := ih b'
      rw [hmax] at this
      exact this

theorem BackoffState.run_head (n : Nat) (b : BackoffState) (v : Nat)
    (h : ((b.run n).1.head? = some v)) : v = b.current := by
  cases n with
  | zero => simp [BackoffState.run] at h
  | succ n =>
    unfold BackoffState.run at h
    rcases hn : b.next with he | ⟨w, b'⟩
    · rw [hn] at h; simp at h
    · rw [hn] at h
      simp at h
      unfold BackoffState.next at hn
      by_cases hc : b.max < b.current
      · simp [hc] at hn
      · simp [hc] at hn
        omega

theorem BackoffState.run_chain (n : Nat) (b : BackoffState) :
    List.Chain' (· ≤ ·) (b.run n).1 := by
  induction n generalizing b with
  | zero => simp [BackoffState.run]
  | succ n ih =>
    unfold BackoffState.run
    rcases hn : b.next with he | ⟨v, b'⟩
    · simp
    · simp only
      rw [List.chain'_cons']
      refine ⟨?_, ih b'⟩
      intro w hw
      have hwcur : w = b'.current := BackoffState.run_head n b' w hw
      unfold BackoffState.next at hn
      by_cases hc : b.max < b.current
      · simp [hc] at hn
      · simp [hc] at hn
        rcases hn with ⟨h1, h2⟩
        subst hwcur
        rw [← h2, ← h1]
        exact stepApply_le b.stepKind b.current

/-- Claim C4: for each of the three backoff sequences, every call to `next`
either returns the current value (at most the ceiling) and advances the
current value via the step function, or, exactly when the value about to be
returned exceeds the ceiling, raises an exhaustion error returning no value;
consequently along the trajectory from each of the three initial states the
returned values are non-decreasing call over call until exhaustion and never
exceed the ceiling. -/
theorem c4_backoff_next_monotone_bounded :
    (∀ b : BackoffState,
        b.next = if b.max < b.current then .error ()
          else .ok (b.current, { b with current := stepApply b.stepKind b.current }))
    ∧ (∀ (k : StepFn) (x : Nat), x ≤ stepApply k x)
    ∧ (∀ x : Nat, stepApply .add250 x = x + 250)
    ∧ (∀ x : Nat, stepApply .mul2 x = x * 2)
    ∧ (∀ n : Nat,
        List.Chain' (· ≤ ·) (networkBackoff0.run n).1
        ∧ ((networkBackoff0.run n).1.all fun v => decide (v ≤ 16000)) = true)
    ∧ (∀ n : Nat,
        List.Chain' (· ≤ ·) (httpBackoff0.run n).1
        ∧ ((httpBackoff0.run n).1.all fun v => decide (v ≤ 320000)) = true)
    ∧ (∀ n : Nat,
        List.Chain' (· ≤ ·) (rateBackoff0.run n).1
        ∧ ((rateBackoff0.run n).1.all fun v => decide (v ≤ 2147483647)) = true) := by
  refine ⟨fun b => rfl, stepApply_le, fun x => rfl, fun x => rfl, ?_, ?_, ?_⟩
  · exact fun n => ⟨BackoffState.run_chain n _, BackoffState.run_all_le n _⟩
  · exact fun n => ⟨BackoffState.run_chain n _, BackoffState.run_all_le n _⟩
  · exact fun n => ⟨BackoffState.run_chain n _, BackoffState.run_all_le n _⟩

/-- Claim C6: for every raw delay `R ≥ 0` and every uniform draw
`U ∈ [0, 1)`, the jittered delay `R + (R*U*0.5 - R*0.25)` lies in the
closed interval `[0.75*R, 1.25*R]`. -/
theorem c6_jitter_bounds (R u : ℚ) (hR : 0 ≤ R) (hu0 : 0 ≤ u) (hu1 : u < 1) :
    (3 / 4) * R ≤ jittered R u ∧ jittered R u ≤ (5 / 4) * R := by
  unfold jittered jitter
  constructor
  · nlinarith [mul_nonneg hR hu0]
  · nlinarith [mul_le_mul_of_nonneg_left (le_of_lt hu1) hR]

/-- Witness for C6 at `R = 4`, `U = 0`: the hypotheses hold and the jittered
delay `3` lies in `[3, 5]`. -/
theorem c6_jitter_bounds_witness :
    (0 : ℚ) ≤ 4 ∧ (0 : ℚ) ≤ 0 ∧ (0 : ℚ) < 1
    ∧ ((3 / 4) * (4 : ℚ) ≤ jittered 4 0 ∧ jittered 4 0 ≤ (5 / 4) * (4 : ℚ)) :=
  ⟨by norm_num, le_refl 0, by norm_num,
    c6_jitter_bounds 4 0 (by norm_num) (le_refl 0) (by norm_num)⟩

/-! ## Filter tables (`this._filters[kind]`, `addFilter`, `removeFilter`) -/

abbrev Keyword := String

/-- One filter kind's dictionary, keyword to reference count, as an
association list preserving JS object key insertion order. -/
abbrev FilterMap := List (Keyword × Int)

namespace FilterMap

/-- JS property read `m[k]`: `none` models `undefined`. -/
def lookup : FilterMap → Keyword → Option Int
  | [], _ => none
  | p :: rest, k => if p.1 = k then some p.2 else lookup rest k

/-- JS property write `m[k] = v`: overwrite in place, or append a new key. -/
def setKey : FilterMap → Keyword → Int → FilterMap
  | [], k, v => [(k, v)]
  | p :: rest, k, v => if p.1 = k then (k, v) :: rest else p :: setKey rest k v

/-- JS `delete m[k]`. -/
def delKey : FilterMap → Keyword → FilterMap
  | [], _ => []
  | p :: rest, k => if p.1 = k then rest else p :: delKey rest k

/-- `Object.keys(m)`. -/
def keys (m : FilterMap) : List Keyword := m.map Prod.fst

/-- The reference count of `k`, taking `undefined` as 0. -/
def count (m : FilterMap) (k : Keyword) : Int := (lookup m k).getD 0

/-- JS truthiness of `m[k]` as tested by `if (this._filters[filter][keyword])`:
false for `undefined` and for 0. -/
def truthy (m : FilterMap) (k : Keyword) : Bool :=
  match lookup m k with
  | none => false
  | some v => v != 0

/-- The per-keyword body of `addFilter`'s loop: increment a truthy entry,
otherwise store 1; the boolean reports a fresh insertion (which sets
`stale` and `addedNewKeyword` in the source). -/
def addOne (m : FilterMap) (k : Keyword) : FilterMap × Bool :=
  if truthy m k then (setKey m k (count m k + 1), false)
  else (setKey m k 1, true)

/-- The body of `removeFilter` for one keyword: return if the entry is
`undefined`; otherwise decrement, deleting the entry when the decremented
count is 0; the boolean reports that the count reached zero (which sets
`stale` in the source). -/
def removeOne (m : FilterMap) (k : Keyword) : FilterMap × Bool :=
  match lookup m k with
  | none => (m, false)
  | some v =>
    if v - 1 = 0 then (delKey m k, true)
    else (setKey m k (v - 1), false)

/-- The `keywords.forEach` loop of `addFilter`: thread the table and the
`addedNewKeyword` flag through the keyword list. -/
def addKeywords (m : FilterMap) (ks : List Keyword) : FilterMap × Bool :=
  ks.foldl (fun acc k =>
    let r := addOne acc.1 k
    (r.1, acc.2 || r.2)) (m, false)

/-- One add or remove call on a single filter kind. -/
inductive FOp
  | add (k : Keyword)
  | remove (k : Keyword)
deriving DecidableEq, Repr

def applyOp (m : FilterMap) : FOp → FilterMap
  | .add k => (addOne m k).1
  | .remove k => (removeOne m k).1

def applyOps (ops : List FOp) (m : FilterMap) : FilterMap := ops.foldl applyOp m

/-- The specified net reference count of one keyword: adds increment it and
removes decrement it, a remove at count 0 being a no-op. -/
def netStep (k : Keyword) (n : Nat) : FOp → Nat
  | .add k' => if k' = k then n + 1 else n
  | .remove k' => if k' = k then n - 1 else n

def netCountFrom (ops : List FOp) (k : Keyword) (n : Nat) : Nat :=
  ops.foldl (netStep k) n

/-- The specified net count of `k` after running `ops` from an empty kind. -/
def netCount (ops : List FOp) (k : Keyword) : Nat := netCountFrom ops k 0

/-- Well-formedness of a filter table: every stored count is at least 1 and
keys are unique (JS object keys are unique; entries are deleted when their
count reaches 0). -/
def WF (m : FilterMap) : Prop := (∀ p ∈ m, 1 ≤ p.2) ∧ (keys m).Nodup

end FilterMap


namespace FilterMap

theorem lookup_eq_none_iff (m : FilterMap) (k : Keyword) :
    lookup m k = none ↔ k ∉ keys m := by
  induction m with
  | nil => simp [lookup, keys]
  | cons p rest ih =>
    by_cases h : p.1 = k
    · simp [lookup, keys, h]
    · simp [lookup, keys, h, ih, Ne.symm h]

theorem lookup_mem (m : FilterMap) (k : Keyword) (v : Int) :
    lookup m k = some v → (k, v) ∈ m := by
  induction m with
  | nil => intro h; simp [lookup] at h
  | cons q rest ih =>
    intro h
    rcases q with ⟨a, b⟩
    by_cases hq : a = k
    · simp only [lookup, if_pos hq, Option.some.injEq] at h
      subst hq
      subst h
      exact List.mem_cons_self _ _
    · simp only [lookup] at h
      rw [if_neg hq] at h
      exact List.mem_cons_of_mem _ (ih h)

theorem lookup_setKey_self (m : FilterMap) (k : Keyword) (v : Int) :
    lookup (setKey m k v) k = some v := by
  induction m with
  | nil => simp [setKey, lookup]
  | cons p rest ih =>
    by_cases h : p.1 = k
    · simp [setKey, lookup, h]
    · simp [setKey, lookup, h, ih]

theorem lookup_setKey_ne (m : FilterMap) (k k' : Keyword) (v : Int) (h : k' ≠ k) :
    lookup (setKey m k v) k' = lookup m k' := by
  induction m with
  | nil => simp [setKey, lookup, Ne.symm h]
  | cons p rest ih =>
    by_cases hp : p.1 = k
    · simp [setKey, lookup, hp, Ne.symm h, h]
    · by_cases hp' : p.1 = k'
      · simp [setKey, lookup, hp, hp', h]
      · simp [setKey, lookup, hp, hp', ih]

theorem lookup_delKey_ne (m : FilterMap) (k k' : Keyword) (h : k' ≠ k) :
    lookup (delKey m k) k' = lookup m k' := by
  induction m with
  | nil => simp [delKey]
  | cons p rest ih =>
    by_cases hp : p.1 = k
    · simp [delKey, lookup, hp, Ne.symm h, h]
    · by_cases hp' : p.1 = k'
      · simp [delKey, lookup, hp, hp', h]
      · simp [delKey, lookup, hp, hp', ih]

theorem lookup_delKey_self (m : FilterMap) (k : Keyword) (hnd : (keys m).Nodup) :
    lookup (delKey m k) k = none := by
  induction m with
  | nil => simp [delKey, lookup]
  | cons p rest ih =>
    simp only [keys, List.map_cons, List.nodup_cons] at hnd
    by_cases hp : p.1 = k
    · simp only [delKey, if_pos hp]
      rw [lookup_eq_none_iff]
      rw [← hp]
      exact hnd.1
    · simp only [delKey, if_neg hp, lookup, if_neg hp]
      exact ih hnd.2

theorem mem_setKey (m : FilterMap) (k : Keyword) (v : Int) (p : Keyword × Int) :
    p ∈ setKey m k v → p = (k, v) ∨ p ∈ m := by
  induction m with
  | nil =>
    intro h
    simp [setKey] at h
    simp [h]
  | cons q rest ih =>
    intro h
    by_cases hq : q.1 = k
    · simp only [setKey, if_pos hq] at h
      rcases List.mem_cons.mp h with h | h
      · exact Or.inl h
      · exact Or.inr (List.mem_cons_of_mem q h)
    · simp only [setKey, if_neg hq] at h
      rcases List.mem_cons.mp h with h | h
      · exact Or.inr (by simp [h])
      · rcases ih h with h' | h'
        · exact Or.inl h'
        · exact Or.inr (List.mem_cons_of_mem q h')

theorem mem_delKey (m : FilterMap) (k : Keyword) (p : Keyword × Int) :
    p ∈ delKey m k → p ∈ m := by
  induction m with
  | nil => intro h; simp [delKey] at h
  | cons q rest ih =>
    intro h
    by_cases hq : q.1 = k
    · simp only [delKey, if_pos hq] at h
      exact List.mem_cons_of_mem q h
    · simp only [delKey, if_neg hq] at h
      rcases List.mem_cons.mp h with h | h
      · simp [h]
      · exact List.mem_cons_of_mem q (ih h)

theorem keys_setKey (m : FilterMap) (k : Keyword) (v : Int) :
    keys (setKey m k v) = if k ∈ keys m then keys m else keys m ++ [k] := by
  induction m with
  | nil => simp [setKey, keys]
  | cons p rest ih =>
    unfold setKey
    by_cases hp : p.1 = k
    · rw [if_pos hp]
      have hk : k ∈ keys (p :: rest) := by simp [keys, hp]
      rw [if_pos hk]
      simp [keys, hp]
    · rw [if_neg hp]
      have hiff : (k ∈ keys (p :: rest)) ↔ (k ∈ keys rest) := by
        simp [keys, Ne.symm hp]
      by_cases hmem : k ∈ keys rest
      · rw [if_pos (hiff.mpr hmem)]
        have hkeq : keys (setKey rest k v) = keys rest := by rw [ih, if_pos hmem]
        simp only [keys, List.map_cons] at hkeq ⊢
        rw [hkeq]
      · rw [if_neg (fun hc => hmem (hiff.mp hc))]
        have hkeq : keys (setKey rest k v) = keys rest ++ [k] := by rw [ih, if_neg hmem]
        simp only [keys, List.map_cons] at hkeq ⊢
        rw [hkeq]
        simp

theorem keys_delKey_sublist (m : FilterMap) (k : Keyword) :
    (keys (delKey m k)).Sublist (keys m) := by
  induction m with
  | nil => simp [delKey]
  | cons p rest ih =>
    by_cases hp : p.1 = k
    · simp only [delKey, if_pos hp, keys, List.map_cons]
      exact List.sublist_cons_self p.1 (keys rest)
    · simp only [delKey, if_neg hp, keys, List.map_cons]
      exact ih.cons₂ p.1

theorem nodup_setKey (m : FilterMap) (k : Keyword) (v : Int)
    (h : (keys m).Nodup) : (keys (setKey m k v)).Nodup := by
  rw [keys_setKey]
  by_cases hmem : k ∈ keys m
  · simpa [hmem] using h
  · rw [if_neg hmem]
    simp [List.nodup_append, h, hmem]

theorem nodup_delKey (m : FilterMap) (k : Keyword)
    (h : (keys m).Nodup) : (keys (delKey m k)).Nodup :=
  (keys_delKey_sublist m k).nodup h

theorem WF_addOne (m : FilterMap) (k : Keyword) (h : WF m) : WF (addOne m k).1 := by
  rcases h with ⟨hpos, hnd⟩
  unfold addOne
  by_cases ht : truthy m k
  · rw [if_pos ht]
    refine ⟨?_, nodup_setKey m k _ hnd⟩
    intro p hp
    rcases mem_setKey m k _ p hp with h' | h'
    · subst h'
      have h1 : 1 ≤ count m k := by
        unfold truthy at ht
        rcases hl : lookup m k with _ | v
        · rw [hl] at ht; simp at ht
        · have := hpos (k, v) (lookup_mem m k v hl)
          unfold count
          rw [hl]
          simpa using this
      show 1 ≤ count m k + 1
      omega
    · exact hpos p h'
  · rw [if_neg ht]
    refine ⟨?_, nodup_setKey m k _ hnd⟩
    intro p hp
    rcases mem_setKey m k _ p hp with h' | h'
    · subst h'
      norm_num
    · exact hpos p h'

theorem WF_removeOne (m : FilterMap) (k : Keyword) (h : WF m) : WF (removeOne m k).1 := by
  rcases h with ⟨hpos, hnd⟩
  unfold removeOne
  rcases hl : lookup m k with _ | v
  · simp only [hl]
    exact ⟨hpos, hnd⟩
  · simp only [hl]
    have hv : 1 ≤ v := by simpa using hpos (k, v) (lookup_mem m k v hl)
    by_cases hz : v - 1 = 0
    · rw [if_pos hz]
      exact ⟨fun p hp => hpos p (mem_delKey m k p hp), nodup_delKey m k hnd⟩
    · rw [if_neg hz]
      refine ⟨?_, nodup_setKey m k _ hnd⟩
      intro p hp
      rcases mem_setKey m k _ p hp with h' | h'
      · subst h'
        show 1 ≤ v - 1
        omega
      · exact hpos p h'

end FilterMap

namespace FilterMap

/-- The count of `k`, as a natural number (counts are nonnegative in
well-formed tables). -/
def natCount (m : FilterMap) (k : Keyword) : Nat := (count m k).toNat

theorem count_of_not_truthy (m : FilterMap) (k : Keyword) (h : truthy m k = false) :
    count m k = 0 := by
  unfold truthy at h
  unfold count
  rcases hl : lookup m k with _ | v
  · simp
  · rw [hl] at h
    simp at h
    simp [h]

theorem count_nonneg (m : FilterMap) (k : Keyword) (h : WF m) : 0 ≤ count m k := by
  unfold count
  rcases hl : lookup m k with _ | v
  · simp
  · have := h.1 (k, v) (lookup_mem m k v hl)
    simp only [Option.getD_some]
    omega

theorem mem_keys_iff_count_pos (m : FilterMap) (k : Keyword) (h : WF m) :
    k ∈ keys m ↔ 1 ≤ count m k := by
  constructor
  · intro hk
    rcases hl : lookup m k with _ | v
    · exact absurd ((lookup_eq_none_iff m k).mp hl) (by simp [hk])
    · have := h.1 (k, v) (lookup_mem m k v hl)
      unfold count
      rw [hl]
      simpa using this
  · intro hc
    by_contra hk
    have := (lookup_eq_none_iff m k).mpr hk
    unfold count at hc
    rw [this] at hc
    simp at hc

theorem count_addOne (m : FilterMap) (k k' : Keyword) :
    count (addOne m k').1 k = count m k + (if k' = k then 1 else 0) := by
  by_cases ht : truthy m k'
  · by_cases hk : k' = k
    · subst hk
      simp [addOne, ht, count, lookup_setKey_self]
    · simp [addOne, ht, count, lookup_setKey_ne m k' k _ (Ne.symm hk), hk]
  · by_cases hk : k' = k
    · subst hk
      have h0 : count m k' = 0 := count_of_not_truthy m k' (by simpa using ht)
      simp only [count] at h0
      simp [addOne, ht, count, lookup_setKey_self, h0]
    · simp [addOne, ht, count, lookup_setKey_ne m k' k _ (Ne.symm hk), hk]

theorem count_removeOne (m : FilterMap) (k k' : Keyword) (h : WF m) :
    count (removeOne m k').1 k =
      if k' = k ∧ 1 ≤ count m k then count m k - 1 else count m k := by
  rcases hl : lookup m k' with _ | v
  · have h0 : count m k' = 0 := by simp [count, hl]
    by_cases hk : k' = k
    · subst hk
      rw [if_neg (fun hx => by omega)]
      simp [removeOne, hl]
    · rw [if_neg (fun hx => hk hx.1)]
      simp [removeOne, hl]
  · have hv : 1 ≤ v := by simpa using h.1 (k', v) (lookup_mem m k' v hl)
    have hcv : count m k' = v := by simp [count, hl]
    by_cases hk : k' = k
    · subst hk
      rw [if_pos ⟨rfl, by omega⟩]
      by_cases hz : v - 1 = 0
      · have hdel : lookup (delKey m k') k' = none := lookup_delKey_self m k' h.2
        simp [removeOne, hl, hz, count, hdel]
      · simp [removeOne, hl, hz, count, lookup_setKey_self]
    · rw [if_neg (fun hx => hk hx.1)]
      by_cases hz : v - 1 = 0
      · simp [removeOne, hl, hz, count, lookup_delKey_ne m k' k (Ne.symm hk)]
      · simp [removeOne, hl, hz, count, lookup_setKey_ne m k' k _ (Ne.symm hk)]

theorem natCount_applyOp (m : FilterMap) (op : FOp) (k : Keyword) (h : WF m) :
    natCount (applyOp m op) k = netStep k (natCount m k) op := by
  have hnn := count_nonneg m k h
  cases op with
  | add k' =>
    show (count (addOne m k').1 k).toNat
        = if k' = k then (count m k).toNat + 1 else (count m k).toNat
    rw [count_addOne m k k']
    by_cases hk : k' = k
    · rw [if_pos hk, if_pos hk]
      omega
    · rw [if_neg hk, if_neg hk]
      simp
  | remove k' =>
    show (count (removeOne m k').1 k).toNat
        = if k' = k then (count m k).toNat - 1 else (count m k).toNat
    rw [count_removeOne m k k' h]
    by_cases hk : k' = k
    · subst hk
      by_cases hc : 1 ≤ count m k'
      · rw [if_pos ⟨rfl, hc⟩, if_pos rfl]
        omega
      · rw [if_neg (fun hx => hc hx.2), if_pos rfl]
        omega
    · rw [if_neg (fun hx => hk hx.1), if_neg hk]

theorem WF_applyOp (m : FilterMap) (op : FOp) (h : WF m) : WF (applyOp m op) := by
  cases op with
  | add k => exact WF_addOne m k h
  | remove k => exact WF_removeOne m k h

theorem applyOps_spec (ops : List FOp) (m : FilterMap) (h : WF m) :
    WF (applyOps ops m)
    ∧ ∀ k, natCount (applyOps ops m) k = netCountFrom ops k (natCount m k) := by
  induction ops generalizing m with
  | nil => exact ⟨h, fun k => rfl⟩
  | cons op rest ih =>
    have h1 := WF_applyOp m op h
    rcases ih (applyOp m op) h1 with ⟨hwf, hcount⟩
    refine ⟨hwf, fun k => ?_⟩
    have : netCountFrom (op :: rest) k (natCount m k)
        = netCountFrom rest k (netStep k (natCount m k) op) := rfl
    rw [this, ← natCount_applyOp m op k h]
    exact hcount k

theorem WF_nil : WF ([] : FilterMap) := ⟨by simp, by simp [keys]⟩

end FilterMap

/-- Claim C7: for any sequence of add and remove calls on one filter kind
starting from an empty table, the reference count of every keyword equals
its saturating net increment count, the set of present keywords is exactly
those whose net count is positive, every stored count is positive (so a
count never becomes negative), and removing an absent keyword is a no-op. -/
theorem c7_filter_net_count (ops : List FilterMap.FOp) (k : Keyword) :
    FilterMap.count (FilterMap.applyOps ops []) k = (FilterMap.netCount ops k : Int)
    ∧ (k ∈ FilterMap.keys (FilterMap.applyOps ops [])
        ↔ 0 < FilterMap.netCount ops k)
    ∧ (∀ p ∈ FilterMap.applyOps ops [], 1 ≤ p.2)
    ∧ (FilterMap.lookup (FilterMap.applyOps ops []) k = none →
        FilterMap.removeOne (FilterMap.applyOps ops []) k
          = (FilterMap.applyOps ops [], false)) := by
  rcases FilterMap.applyOps_spec ops [] FilterMap.WF_nil with ⟨hwf, hcount⟩
  have hnn := FilterMap.count_nonneg _ k hwf
  have hnc : FilterMap.natCount (FilterMap.applyOps ops []) k = FilterMap.netCount ops k := by
    simpa [FilterMap.natCount, FilterMap.netCount, FilterMap.count] using hcount k
  have hceq : FilterMap.count (FilterMap.applyOps ops []) k
      = (FilterMap.netCount ops k : Int) := by
    unfold FilterMap.natCount at hnc
    omega
  refine ⟨hceq, ?_, hwf.1, ?_⟩
  · rw [FilterMap.mem_keys_iff_count_pos _ k hwf, hceq]
    omega
  · intro hnone
    unfold FilterMap.removeOne
    rw [hnone]

/-- Witness for C7 at the concrete call sequence
`add "a", remove "a", remove "b"` and keyword `"a"`: the net count is 0,
`"a"` is absent, and removing it once more is a no-op. -/
theorem c7_filter_net_count_witness :
    (FilterMap.count
        (FilterMap.applyOps [.add "a", .remove "a", .remove "b"] []) "a"
      = (FilterMap.netCount [.add "a", .remove "a", .remove "b"] "a" : Int))
    ∧ FilterMap.lookup
        (FilterMap.applyOps [.add "a", .remove "a", .remove "b"] []) "a" = none
    ∧ FilterMap.removeOne
        (FilterMap.applyOps [.add "a", .remove "a", .remove "b"] []) "a"
      = (FilterMap.applyOps [.add "a", .remove "a", .remove "b"] [], false) := by
  have h := c7_filter_net_count [.add "a", .remove "a", .remove "b"] "a"
  exact ⟨h.1, by decide, h.2.2.2 (by decide)⟩

/-! ## The client state and the connection manager (`Twitter.prototype`) -/

/-- The four filter kinds (`FILTER_TYPE_TRACKING` etc.). -/
inductive FilterKind
  | tracking
  | location
  | follow
  | language
deriving DecidableEq, Repr

/-- The mutable instance fields of a `Twitter` object that the
connection-lifecycle code reads or writes. `stream` records whether an
active transport handle is held (`this.stream`); `connectBackoff` is the
field used both as the pending-reconnect-timer flag (`== 0` means none) and
as the delay reported in notifications; `inConnectBackoff` is the field
written (only) by the network-error reconnect timer callback. -/
structure TwitterState where
  tracking : FilterMap
  location : FilterMap
  follow : FilterMap
  language : FilterMap
  stale : Bool
  stream : Bool
  connectBackoff : ℚ
  inConnectBackoff : ℚ
  networkBackoff : BackoffState
  httpBackoff : BackoffState
  rateBackoff : BackoffState
deriving DecidableEq, Repr

/-- Externally visible effects of one event-handler invocation, in order. -/
inductive Effect
  | abort
  | request (track locations follow language : String)
  | scheduleTimer (delay : ℚ)
  | emitReconnect (rtype : String) (delay : ℚ)
  | emitError (code : Nat)
  | emitConnect
deriving DecidableEq, Repr

/-- A `{type, long}` entry of `Twitter.prototype.errorExplanation`. -/
structure Explanation where
  type : String
  long : String
deriving DecidableEq, Repr

/-- `Twitter.prototype.errorExplanation`: the fixed status-code table. -/
def errorExplanation (code : Nat) : Option Explanation :=
  if code = 401 then some ⟨"unauthorized", "HTTP authentication failed."⟩
  else if code = 403 then
    some ⟨"forbidden", "The connecting account is not permitted to access this endpoint."⟩
  else if code = 404 then some ⟨"not-found", "There is nothing at this URL."⟩
  else if code = 406 then some ⟨"not-acceptable", "At least one request parameter is invalid."⟩
  else if code = 413 then some ⟨"too-long", "A parameter list is too long."⟩
  else if code = 416 then
    some ⟨"range-unacceptable",
      "Returned if user does not have access to use the count parameter or a count parameter is outside of the max/min allowable values."⟩
  else if code = 420 then some ⟨"rate-limit", "The client has connected too frequently."⟩
  else if code = 503 then
    some ⟨"service-unavailable", "A streaming server is temporarily overloaded."⟩
  else none

namespace Twitter

def getF (s : TwitterState) : FilterKind → FilterMap
  | .tracking => s.tracking
  | .location => s.location
  | .follow => s.follow
  | .language => s.language

def setF (s : TwitterState) : FilterKind → FilterMap → TwitterState
  | .tracking, m => { s with tracking := m }
  | .location, m => { s with location := m }
  | .follow, m => { s with follow := m }
  | .language, m => { s with language := m }

/-- `Twitter.prototype.hasFilters`:
`this.tracking().length > 0 || this.locations().length > 0 || ...`. -/
def hasFilters (s : TwitterState) : Bool :=
  decide (0 < (FilterMap.keys s.tracking).length)
    || decide (0 < (FilterMap.keys s.location).length)
    || decide (0 < (FilterMap.keys s.follow).length)
    || decide (0 < (FilterMap.keys s.language).length)

/-- `Twitter.prototype.abort` as far as the modelled state goes: clear the
stall timer (not modelled) and drop the transport handle. -/
def abort (s : TwitterState) : TwitterState := { s with stream := false }

/-- `Twitter.prototype.connect`: unconditionally clear `stale`; if no kind
has filters, return without a request; otherwise issue the signed POST whose
form body holds the four comma-joined key snapshots and hold the new
transport handle. -/
def connect (s : TwitterState) : TwitterState × List Effect :=
  let s1 : TwitterState := { s with stale := false }
  if hasFilters s1 then
    ({ s1 with stream := true },
      [Effect.request
        (String.intercalate "," (FilterMap.keys s1.tracking))
        (String.intercalate "," (FilterMap.keys s1.location))
        (String.intercalate "," (FilterMap.keys s1.follow))
        (String.intercalate "," (FilterMap.keys s1.language))])
  else (s1, [])

/-- `Twitter.prototype.reconnect`: only if `stale`; abort an active
transport first, then `connect()`. -/
def reconnect (s : TwitterState) : TwitterState × List Effect :=
  if s.stale then
    if s.stream then
      let r := connect (abort s)
      (r.1, Effect.abort :: r.2)
    else connect s
  else (s, [])

/-- `Twitter.prototype.addFilter` for one kind, a keyword list and an
explicit reconnect flag (the source defaults the flag to true and wraps a
single keyword into a list): increment or freshly insert each keyword,
setting `stale` on any fresh insertion, then call `reconnect()` once iff the
flag is set and some keyword was freshly inserted. -/
def addFilter (kind : FilterKind) (ks : List Keyword) (rc : Bool)
    (s : TwitterState) : TwitterState × List Effect :=
  let r := FilterMap.addKeywords (getF s kind) ks
  let s1 := setF s kind r.1
  let s2 := if r.2 then { s1 with stale := true } else s1
  if rc && r.2 then reconnect s2 else (s2, [])

/-- The stall-watchdog `close` callback armed in the 200 branch:
`this.abort(); process.nextTick(this.connect.bind(this));
this.emit('reconnect', this, {type: 'stall'}, 0)`. The `nextTick`-deferred
`connect` runs right after the synchronous emit. -/
def onStall (s : TwitterState) : TwitterState × List Effect :=
  let r := connect (abort s)
  (r.1, Effect.abort :: Effect.emitReconnect "stall" 0 :: r.2)

/-- The `'response'` handler of `connect` at status `status`, with `u` the
`Math.random()` draw used for jitter. Returns `none` when the drawn backoff
sequence throws its exhaustion error. -/
def onResponse (status : Nat) (u : ℚ) (s : TwitterState) :
    Option (TwitterState × List Effect) :=
  if status = 420 ∨ status = 503 then
    match (if status = 420 then s.rateBackoff.next else s.httpBackoff.next) with
    | .error _ => none
    | .ok r =>
      let s1 := if status = 420 then { s with rateBackoff := r.2 }
        else { s with httpBackoff := r.2 }
      let s2 := abort s1
      let d := jittered (r.1 : ℚ) u
      let rtype := ((errorExplanation status).map Explanation.type).getD ""
      if s2.connectBackoff = 0 then
        some ({ s2 with connectBackoff := d },
          [Effect.abort, Effect.scheduleTimer d, Effect.emitReconnect rtype d])
      else
        some (s2, [Effect.abort, Effect.emitReconnect rtype s2.connectBackoff])
  else if 200 < status then
    some (abort s, [Effect.abort, Effect.emitError status])
  else
    let s1 : TwitterState :=
      { s with
          networkBackoff := networkBackoff0
          httpBackoff := httpBackoff0
          rateBackoff := rateBackoff0 }
    some (s1, [Effect.emitConnect])

/-- The `'error'` handler of `connect`: abort, draw the network backoff,
jitter with `u`, schedule a reconnect timer only when `connectBackoff == 0`,
and emit a reconnect notification with `type 'network'` and the current
`connectBackoff` either way. -/
def onNetError (u : ℚ) (s : TwitterState) : Option (TwitterState × List Effect) :=
  let s1 := abort s
  match s1.networkBackoff.next with
  | .error _ => none
  | .ok r =>
    let s2 := { s1 with networkBackoff := r.2 }
    let d := jittered (r.1 : ℚ) u
    if s2.connectBackoff = 0 then
      some ({ s2 with connectBackoff := d },
        [Effect.abort, Effect.scheduleTimer d, Effect.emitReconnect "network" d])
    else
      some (s2, [Effect.abort, Effect.emitReconnect "network" s2.connectBackoff])

end Twitter

/-! ## Record demultiplexing (`Twitter.prototype._write`) -/

/-- The eight event kinds emitted by `_write`. -/
inductive EventKind
  | tweet
  | delete
  | scrub_geo
  | limit
  | status_withheld
  | user_withheld
  | disconnect
  | warning
deriving DecidableEq, Repr

/-- Truthiness of the eight fields of one decoded record that `_write`
inspects. -/
structure StreamRecord where
  text : Bool
  delete : Bool
  scrub_geo : Bool
  limit : Bool
  status_withheld : Bool
  user_withheld : Bool
  disconnect : Bool
  warning : Bool
deriving DecidableEq, Repr

/-- Which record field corresponds to which event kind. -/
def fieldPresent (d : StreamRecord) : EventKind → Bool
  | .tweet => d.text
  | .delete => d.delete
  | .scrub_geo => d.scrub_geo
  | .limit => d.limit
  | .status_withheld => d.status_withheld
  | .user_withheld => d.user_withheld
  | .disconnect => d.disconnect
  | .warning => d.warning

/-- The classification order fixed by `_write`'s if/else-if chain. -/
def priorityOrder : List EventKind :=
  [.tweet, .delete, .scrub_geo, .limit, .status_withheld,
   .user_withheld, .disconnect, .warning]

namespace Twitter

/-- `Twitter.prototype._write`: the event emitted for one decoded record
(`none` when the record matches no field and is dropped). -/
def _write (d : StreamRecord) : Option EventKind :=
  if d.text then some .tweet
  else if d.delete then some .delete
  else if d.scrub_geo then some .scrub_geo
  else if d.limit then some .limit
  else if d.status_withheld then some .status_withheld
  else if d.user_withheld then some .user_withheld
  else if d.disconnect then some .disconnect
  else if d.warning then some .warning
  else none

/-! ## Event traces -/

/-- Environment events delivered to one `Twitter` instance: a response with
its status code and the jitter draw, a transport error with its jitter draw,
the firing of the reconnect timer scheduled by the response handler, the
firing of the one scheduled by the error handler, and the stall watchdog. -/
inductive Ev
  | response (status : Nat) (u : ℚ)
  | netError (u : ℚ)
  | respTimerFire
  | netTimerFire
  | stall
deriving DecidableEq, Repr

/-- Dispatch one event. The two timer-fire callbacks come from the source:
the response-handler timer runs `self.connectBackoff = 0; self.connect()`,
while the error-handler timer runs `self.inConnectBackoff = 0;
self.connect()`. -/
def step (e : Ev) (s : TwitterState) : Option (TwitterState × List Effect) :=
  match e with
  | .response status u => onResponse status u s
  | .netError u => onNetError u s
  | .respTimerFire => some (connect { s with connectBackoff := 0 })
  | .netTimerFire => some (connect { s with inConnectBackoff := 0 })
  | .stall => some (onStall s)

/-- Run a list of events, accumulating the emitted effects in order;
`none` propagates a backoff-exhaustion throw. -/
def run : List Ev → TwitterState → Option (TwitterState × List Effect)
  | [], s => some (s, [])
  | e :: es, s =>
    match step e s with
    | none => none
    | some (s1, as1) =>
      match run es s1 with
      | none => none
      | some (s2, as2) => some (s2, as1 ++ as2)

/-- The delays of the reconnect timers scheduled in an effect list. -/
def scheduledDelays : List Effect → List ℚ
  | [] => []
  | .scheduleTimer d :: rest => d :: scheduledDelays rest
  | _ :: rest => scheduledDelays rest

/-- The reconnect notifications emitted in an effect list, with their type
string and reported delay. -/
def reconnectEmits : List Effect → List (String × ℚ)
  | [] => []
  | .emitReconnect t d :: rest => (t, d) :: reconnectEmits rest
  | _ :: rest => reconnectEmits rest

/-- How many requests an effect list issues. -/
def countRequests : List Effect → Nat
  | [] => 0
  | .request _ _ _ _ :: rest => 1 + countRequests rest
  | _ :: rest => countRequests rest

end Twitter

/-- The state constructed by `new Twitter(oauth)`: empty filter tables,
fresh backoffs, `connectBackoff = 0`, no stream; `stale` and
`inConnectBackoff` start as undefined fields, i.e. falsy and 0 in the
model. -/
def initState : TwitterState :=
  { tracking := [], location := [], follow := [], language := []
    stale := false, stream := false, connectBackoff := 0, inConnectBackoff := 0
    networkBackoff := networkBackoff0, httpBackoff := httpBackoff0
    rateBackoff := rateBackoff0 }

/-- A freshly connected client tracking the single keyword `"a"`: the state
after `track('a')` (which auto-reconnects and issues the request). -/
def s0 : TwitterState :=
  { tracking := [("a", 1)], location := [], follow := [], language := []
    stale := false, stream := true, connectBackoff := 0, inConnectBackoff := 0
    networkBackoff := networkBackoff0, httpBackoff := httpBackoff0
    rateBackoff := rateBackoff0 }

theorem s0_reachable : s0 = (Twitter.addFilter .tracking ["a"] true initState).1 := by
  decide

/-! ## Claims about `connect`, `_write` and the stall watchdog -/

/-- A client whose four filter kinds are all empty but whose `stale` flag is
set (for instance after `removeAllFilters('tracking', false)` on a fresh
client). -/
def sStaleEmpty : TwitterState := { initState with stale := true }

/-- Claim C2, counterexample: with all four filter kinds empty and `stale`
set, `connect()` issues no request but does not leave the manager's state
unchanged — it clears the `stale` flag (the source clears `stale` before
the `hasFilters()` guard). -/
theorem c2_connect_empty_counterexample :
    sStaleEmpty.stale = true
    ∧ (Twitter.connect sStaleEmpty).2 = []
    ∧ (Twitter.connect sStaleEmpty).1.stale = false := by
  refine ⟨rfl, by decide, by decide⟩

/-- Claim C2 as amended: `connect()` always clears `stale` first; when all
four filter kinds are empty it then issues no request and changes nothing
else, and when at least one kind is non-empty it issues one request whose
form body holds the four comma-joined snapshots, an empty kind joining to
the empty string. -/
theorem c2_connect_amended (s : TwitterState) :
    Twitter.connect s =
      (if Twitter.hasFilters s then
        ({ s with stale := false, stream := true },
          [Effect.request
            (String.intercalate "," (FilterMap.keys s.tracking))
            (String.intercalate "," (FilterMap.keys s.location))
            (String.intercalate "," (FilterMap.keys s.follow))
            (String.intercalate "," (FilterMap.keys s.language))])
      else ({ s with stale := false }, []))
    ∧ String.intercalate "," (FilterMap.keys ([] : FilterMap)) = "" := by
  constructor
  · cases s
    rfl
  · rfl

/-- Claim C8: `_write` classifies every decoded record by first-match field
presence in the fixed priority order text, delete, scrub_geo, limit,
status_withheld, user_withheld, disconnect, warning (emitting exactly one
event, of the first matching kind), and emits nothing for a record matching
none of the eight fields — `priorityOrder` enumerating all eight kinds, so
`find?` returns `none` exactly on such records. -/
theorem c8_classification_priority (d : StreamRecord) :
    Twitter._write d = priorityOrder.find? (fieldPresent d)
    ∧ ∀ k : EventKind, k ∈ priorityOrder := by
  constructor
  · rcases d with ⟨t, dl, sg, li, sw, uw, dc, w⟩
    cases t <;> cases dl <;> cases sg <;> cases li <;> cases sw <;> cases uw
      <;> cases dc <;> cases w <;> rfl
  · intro k
    cases k <;> simp [priorityOrder]

/-- Claim C9: the stall watchdog handler aborts the transport, immediately
re-invokes `connect()` (with zero delay, via `nextTick`) regardless of the
current `stale` flag value, and emits a reconnect notification with reason
`"stall"` and delay 0 — bypassing the staleness gate of the explicit
`reconnect()` entry point, which does nothing when `stale` is clear. -/
theorem c9_stall_bypasses_stale_gate (s : TwitterState) (b : Bool) :
    Twitter.onStall { s with stale := b } = Twitter.onStall s
    ∧ Twitter.onStall s
      = ((Twitter.connect (Twitter.abort s)).1,
          Effect.abort :: Effect.emitReconnect "stall" 0
            :: (Twitter.connect (Twitter.abort s)).2)
    ∧ Twitter.reconnect { s with stale := false } = ({ s with stale := false }, []) := by
  refine ⟨?_, rfl, ?_⟩
  · cases s
    rfl
  · cases s
    rfl


/-! ## Claims about failure handling traces -/

/-- Claim C1, evaluated at the failing input: three network failures with
the scheduled reconnect timer firing in between each. The third failure
arrives when no timer is pending (both scheduled timers have already
fired), yet it schedules no new timer — only two timers are ever scheduled
against three `"network"` reconnect notifications — because the network
timer callback clears `inConnectBackoff` instead of `connectBackoff`,
leaving `connectBackoff` at 375/2 although its timer already fired. -/
theorem c1_network_timer_not_rescheduled :
    (Twitter.run
        [.netError 0, .netTimerFire, .netError 0, .netTimerFire, .netError 0] s0).map
        (fun p => (Twitter.scheduledDelays p.2, Twitter.reconnectEmits p.2,
          p.1.connectBackoff, p.1.inConnectBackoff))
      = some ([0, 375 / 2],
          [("network", 0), ("network", 375 / 2), ("network", 375 / 2)],
          375 / 2, 0) := by
  norm_num [Twitter.run, Twitter.step, Twitter.onNetError, Twitter.abort,
    Twitter.connect, Twitter.hasFilters, BackoffState.next,
    jittered, jitter, s0, networkBackoff0, httpBackoff0, rateBackoff0, stepApply,
    FilterMap.keys, Twitter.scheduledDelays, Twitter.reconnectEmits]

/-- Claim C5: a 200 response resets all three backoff sequences to their
initial parameters — network initial 0, step x+250, ceiling 16000;
http-error initial 1000, step x*2, ceiling 320000; rate-limit initial 1000,
step x*2, ceiling 2147483647 — and concretely, with jitter draw 1/2 (zero
jitter, so scheduled delays equal raw draws), the trace network failure,
200, network failure schedules delays [0, 0]: the second failure draws the
initial raw value 0 again, whereas without the intervening 200 the same
pair of failures schedules [0, 250], the advanced raw value. -/
theorem c5_success_resets_backoffs :
    (∀ (s : TwitterState) (u : ℚ),
        Twitter.onResponse 200 u s
          = some ({ s with
                      networkBackoff := networkBackoff0
                      httpBackoff := httpBackoff0
                      rateBackoff := rateBackoff0 }, [Effect.emitConnect]))
    ∧ networkBackoff0 = { current := 0, max := 16000, stepKind := .add250 }
    ∧ httpBackoff0 = { current := 1000, max := 320000, stepKind := .mul2 }
    ∧ rateBackoff0 = { current := 1000, max := 2147483647, stepKind := .mul2 }
    ∧ (Twitter.run [.netError (1 / 2), .response 200 (1 / 2), .netError (1 / 2)] s0).map
        (fun p => Twitter.scheduledDelays p.2) = some [0, 0]
    ∧ (Twitter.run [.netError (1 / 2), .netError (1 / 2)] s0).map
        (fun p => Twitter.scheduledDelays p.2) = some [0, 250] := by
  refine ⟨fun s u => rfl, rfl, rfl, rfl, ?_, ?_⟩
  · norm_num [Twitter.run, Twitter.step, Twitter.onNetError, Twitter.onResponse,
      Twitter.abort, Twitter.connect, Twitter.hasFilters, BackoffState.next,
      jittered, jitter, s0, networkBackoff0, httpBackoff0, rateBackoff0, stepApply,
      FilterMap.keys, Twitter.scheduledDelays]
  · norm_num [Twitter.run, Twitter.step, Twitter.onNetError, Twitter.abort,
      Twitter.connect, Twitter.hasFilters, BackoffState.next,
      jittered, jitter, s0, networkBackoff0, httpBackoff0, rateBackoff0, stepApply,
      FilterMap.keys, Twitter.scheduledDelays]

/-- Claim C3: two 420 responses arriving before the first scheduled
reconnect timer fires (and with no timer pending beforehand) schedule
exactly one reconnect timer in total but emit two reconnect notifications,
each carrying the rate-limit classification and the (already-pending)
delay of the single scheduled timer. -/
theorem c3_double_420_single_timer (u1 u2 : ℚ)
    (h1 : 0 ≤ u1) (h2 : u1 < 1) (h3 : 0 ≤ u2) (h4 : u2 < 1) :
    (Twitter.run [.response 420 u1, .response 420 u2] s0).map
        (fun p => (Twitter.scheduledDelays p.2, Twitter.reconnectEmits p.2))
      = some ([jittered 1000 u1],
          [("rate-limit", jittered 1000 u1), ("rate-limit", jittered 1000 u1)]) := by
  have hpos : (0 : ℚ) < jittered 1000 u1 := by
    unfold jittered jitter
    nlinarith
  have hne : ¬((1000 : ℚ) + (1000 * u1 * (1 / 2) - 250) = 0) := by nlinarith
  norm_num [Twitter.run, Twitter.step, Twitter.onResponse, Twitter.abort,
    BackoffState.next, s0, rateBackoff0, stepApply, errorExplanation,
    jittered, jitter, hne, Twitter.scheduledDelays, Twitter.reconnectEmits]

/-- Witness for C3 at the draws `u1 = u2 = 0`: the hypotheses hold and the
two-420 trace schedules one timer of delay `jittered 1000 0 = 750` while
emitting two rate-limit reconnect notifications carrying that delay. -/
theorem c3_double_420_single_timer_witness :
    ((0 : ℚ) ≤ 0 ∧ (0 : ℚ) < 1)
    ∧ (Twitter.run [.response 420 0, .response 420 0] s0).map
        (fun p => (Twitter.scheduledDelays p.2, Twitter.reconnectEmits p.2))
      = some ([jittered 1000 0],
          [("rate-limit", jittered 1000 0), ("rate-limit", jittered 1000 0)]) :=
  ⟨⟨le_refl 0, by norm_num⟩,
    c3_double_420_single_timer 0 0 (le_refl 0) (by norm_num) (le_refl 0) (by norm_num)⟩

/-! ## Claim C10: reconnect behaviour of one `addFilter` call -/

namespace FilterMap

theorem truthy_of_count_pos (m : FilterMap) (k : Keyword) (h : 1 ≤ count m k) :
    truthy m k = true := by
  unfold truthy
  rcases hl : lookup m k with _ | v
  · exfalso
    unfold count at h
    rw [hl] at h
    simp at h
  · simp only [hl]
    have hv : v ≠ 0 := by
      unfold count at h
      rw [hl] at h
      simp only [Option.getD_some] at h
      omega
    simpa using hv

/-- Adding a list of keywords that are all already present (with positive
counts, as in any well-formed table) inserts nothing fresh. -/
theorem addKeywords_present (ks : List Keyword) :
    ∀ m : FilterMap, WF m → (∀ k ∈ ks, 1 ≤ count m k) →
      (addKeywords m ks).2 = false := by
  induction ks with
  | nil => intro m _ _; rfl
  | cons k rest ih =>
    intro m hwf hall
    have ht : truthy m k = true :=
      truthy_of_count_pos m k (hall k (List.mem_cons_self k rest))
    have haddeq : addOne m k = (setKey m k (count m k + 1), false) := by
      simp [addOne, ht]
    have hstep : addKeywords m (k :: rest)
        = addKeywords (setKey m k (count m k + 1)) rest := by
      simp [addKeywords, haddeq]
    rw [hstep]
    have hwf' : WF (setKey m k (count m k + 1)) := by
      have := WF_addOne m k hwf
      simp only [haddeq] at this
      exact this
    apply ih _ hwf'
    intro k' hk'
    have hca := count_addOne m k' k
    simp only [haddeq] at hca
    rw [hca]
    have h1 := hall k' (List.mem_cons_of_mem k hk')
    split <;> omega

end FilterMap

theorem Twitter.setF_stale (s : TwitterState) (kind : FilterKind) (m : FilterMap) :
    (Twitter.setF s kind m).stale = s.stale := by
  cases kind <;> rfl

theorem Twitter.countRequests_connect (s : TwitterState) :
    Twitter.countRequests (Twitter.connect s).2 ≤ 1 := by
  unfold Twitter.connect
  by_cases h : Twitter.hasFilters { s with stale := false }
  · simp [h, Twitter.countRequests]
  · simp [h, Twitter.countRequests]

theorem Twitter.countRequests_reconnect (s : TwitterState) :
    Twitter.countRequests (Twitter.reconnect s).2 ≤ 1 := by
  unfold Twitter.reconnect
  by_cases h1 : s.stale
  · by_cases h2 : s.stream
    · simp only [h1, h2, if_true]
      have := Twitter.countRequests_connect (Twitter.abort s)
      simpa [Twitter.countRequests] using this
    · simp only [h1, if_true]
      rw [if_neg (by simpa using h2)]
      exact Twitter.countRequests_connect s
  · rw [if_neg (by simpa using h1)]
    simp [Twitter.countRequests]

/-- Claim C10: one `addFilter` call triggers the reconnect path at most
once per call — after all keywords of the list are processed, and only
when the auto-reconnect flag is true and some keyword of the list was
freshly inserted — so at most one request is issued per call and a call
with the flag cleared produces no effect; re-adding only already-present
keywords (positive count) never triggers reconnect, produces no effect and
leaves the `stale` flag unchanged. -/
theorem c10_add_filter_reconnect_once (kind : FilterKind) (ks : List Keyword)
    (rc : Bool) (s : TwitterState) :
    (Twitter.addFilter kind ks false s).2 = []
    ∧ Twitter.countRequests (Twitter.addFilter kind ks rc s).2 ≤ 1
    ∧ (Twitter.addFilter kind ks rc s
        = (let r := FilterMap.addKeywords (Twitter.getF s kind) ks
           let s2 := if r.2 then { Twitter.setF s kind r.1 with stale := true }
             else Twitter.setF s kind r.1
           if rc && r.2 then Twitter.reconnect s2 else (s2, [])))
    ∧ (FilterMap.WF (Twitter.getF s kind) →
        (∀ k ∈ ks, 1 ≤ FilterMap.count (Twitter.getF s kind) k) →
        (FilterMap.addKeywords (Twitter.getF s kind) ks).2 = false
        ∧ (Twitter.addFilter kind ks rc s).2 = []
        ∧ (Twitter.addFilter kind ks rc s).1.stale = s.stale) := by
  refine ⟨?_, ?_, rfl, ?_⟩
  · simp [Twitter.addFilter]
  · unfold Twitter.addFilter
    dsimp only
    split
    · exact Twitter.countRequests_reconnect _
    · simp [Twitter.countRequests]
  · intro hwf hall
    have hsnd : (FilterMap.addKeywords (Twitter.getF s kind) ks).2 = false :=
      FilterMap.addKeywords_present ks (Twitter.getF s kind) hwf hall
    refine ⟨hsnd, ?_, ?_⟩
    · simp [Twitter.addFilter, hsnd]
    · simp [Twitter.addFilter, hsnd, Twitter.setF_stale]

/-- Witness for C10 on the freshly connected client `s0`, re-adding the
already-tracked keyword `"a"` with the auto-reconnect flag set: nothing
fresh is inserted, no effect is produced and `stale` is unchanged. -/
theorem c10_add_filter_reconnect_once_witness :
    FilterMap.WF (Twitter.getF s0 .tracking)
    ∧ (∀ k ∈ ["a"], 1 ≤ FilterMap.count (Twitter.getF s0 .tracking) k)
    ∧ ((FilterMap.addKeywords (Twitter.getF s0 .tracking) ["a"]).2 = false
        ∧ (Twitter.addFilter .tracking ["a"] true s0).2 = []
        ∧ (Twitter.addFilter .tracking ["a"] true s0).1.stale = s0.stale) := by
  have hwf : FilterMap.WF (Twitter.getF s0 .tracking) := ⟨by decide, by decide⟩
  have hall : ∀ k ∈ ["a"], 1 ≤ FilterMap.count (Twitter.getF s0 .tracking) k := by
    decide
  exact ⟨hwf, hall,
    (c10_add_filter_reconnect_once .tracking ["a"] true s0).2.2.2 hwf hall⟩
